import Mathlib

/-!
Verification development for `src/inauguralproject/HouseholdSpecializationModel.py`.

The file shallowly embeds the two model classes of the source
(`HouseholdSpecializationModelClass`, suffix `A` here, and
`NewHouseholdSpecializationModelClass`, suffix `B`) over the real numbers:

* numpy floating point arithmetic is modelled by `ℝ`, with `x ^ y`
  (`Real.rpow`) for the float `**` operator, `min`/`max` for
  `np.minimum`/`np.fmax`, and `WithBot ℝ` for arrays that may hold `-np.inf`;
* the two `SimpleNamespace` containers `par` and `sol` become the structures
  `ParA`/`ParB` and `SolA`/`SolB`, and methods that mutate `self` become
  explicit state-passing functions on `ModelA`/`ModelB`;
* the external `scipy.optimize.minimize` solvers (SLSQP inside `solve_cont`,
  Nelder-Mead inside `estimate`) are opaque library calls, so they are taken
  as explicit function parameters (`solver`, `minim`); everything the source
  itself computes is embedded directly.
-/

open Classical

/-- The `par` namespace of `HouseholdSpecializationModelClass` (source lines
19-36): preferences, household production, wages and regression targets. -/
structure ParA where
  rho : ℝ
  nu : ℝ
  epsilon : ℝ
  omega : ℝ
  alpha : ℝ
  sigma : ℝ
  wM : ℝ
  wF : ℝ
  wF_vec : List ℝ
  beta0_target : ℝ
  beta1_target : ℝ

/-- The `sol` namespace (source lines 38-45): one solution vector per choice
component plus the two fitted regression coefficients.  `np.nan`, the initial
value of `beta0`/`beta1`, has no counterpart in `ℝ`; it is modelled as `0`
(no claim depends on the pre-regression value). -/
structure SolA where
  LM_vec : List ℝ
  HM_vec : List ℝ
  LF_vec : List ℝ
  HF_vec : List ℝ
  beta0 : ℝ
  beta1 : ℝ

/-- A `HouseholdSpecializationModelClass` instance: its `par` and `sol` state. -/
structure ModelA where
  par : ParA
  sol : SolA

/-- Default parameters set in `__init__` (source lines 20-36);
`np.linspace(0.8,1.2,5)` is the five wages `0.8, 0.9, 1.0, 1.1, 1.2`. -/
noncomputable def defaultParA : ParA :=
  { rho := 2.0, nu := 0.001, epsilon := 1.0, omega := 0.5, alpha := 0.5,
    sigma := 1.0, wM := 1.0, wF := 1.0, wF_vec := [0.8, 0.9, 1.0, 1.1, 1.2],
    beta0_target := 0.4, beta1_target := -0.1 }

/-- Default solution state set in `__init__` (source lines 39-45):
`np.zeros(5)` vectors; the `np.nan` coefficients are modelled as `0`. -/
noncomputable def defaultSolA : SolA :=
  { LM_vec := List.replicate 5 0, HM_vec := List.replicate 5 0,
    LF_vec := List.replicate 5 0, HF_vec := List.replicate 5 0,
    beta0 := 0, beta1 := 0 }

/-- A freshly constructed `HouseholdSpecializationModelClass()`. -/
noncomputable def defaultModelA : ModelA := { par := defaultParA, sol := defaultSolA }

/-- The home-production value `H` (source lines 56-65, step "b. home
production", identical in both classes): Leontief for `sigma = 0`,
Cobb-Douglas for `sigma = 1`, otherwise the CES form with `HM`, `HF`
floored at `1e-7` (`np.fmax`). -/
noncomputable def homeProd (sigma alpha HM HF : ℝ) : ℝ :=
  if sigma = 0 then min HM HF
  else if sigma = 1 then HM ^ (1 - alpha) * HF ^ alpha
  else
    ((1 - alpha) * (max HM 1e-7) ^ ((sigma - 1) / sigma) +
        alpha * (max HF 1e-7) ^ ((sigma - 1) / sigma)) ^ (sigma / (sigma - 1))

/-- The full "b. home production" step of `calc_utility` (source lines
56-65): it returns `H` together with the final values of the local
variables `HM` and `HF`.  In the CES branch the source REBINDS those locals
to `np.fmax(HM, 1e-07)`, `np.fmax(HF, 1e-07)` (lines 62-63) before
computing `H`, and the rebound values later flow into `TM = LM+HM`,
`TF = LF+HF` of the disutility (lines 73-74); in the other two branches the
locals keep their argument values. -/
noncomputable def homeProdStep (sigma alpha HM HF : ℝ) : ℝ × ℝ × ℝ :=
  if sigma = 0 then (min HM HF, HM, HF)
  else if sigma = 1 then (HM ^ (1 - alpha) * HF ^ alpha, HM, HF)
  else
    let HM' := max HM 1e-7
    let HF' := max HF 1e-7
    (((1 - alpha) * HM' ^ ((sigma - 1) / sigma) +
        alpha * HF' ^ ((sigma - 1) / sigma)) ^ (sigma / (sigma - 1)),
      HM', HF')

/-- The `H` component of the home-production step is `homeProd`. -/
theorem homeProdStep_fst (sigma alpha HM HF : ℝ) :
    (homeProdStep sigma alpha HM HF).1 = homeProd sigma alpha HM HF := by
  by_cases h0 : sigma = 0
  · simp [homeProdStep, homeProd, h0]
  · by_cases h1 : sigma = 1
    · simp [homeProdStep, homeProd, h0, h1]
    · simp [homeProdStep, homeProd, h0, h1]

/-- In the `sigma = 0` and `sigma = 1` branches the local `HM`, `HF` keep
their argument values. -/
theorem homeProdStep_snd_branch (sigma alpha HM HF : ℝ)
    (h : sigma = 0 ∨ sigma = 1) :
    (homeProdStep sigma alpha HM HF).2.1 = HM ∧
      (homeProdStep sigma alpha HM HF).2.2 = HF := by
  rcases h with h0 | h1
  · simp [homeProdStep, h0]
  · by_cases h0 : sigma = 0
    · simp [homeProdStep, h0]
    · simp [homeProdStep, h0, h1]

/-- In the CES branch the local `HM`, `HF` are rebound to their floored
values. -/
theorem homeProdStep_snd_ces (sigma alpha HM HF : ℝ)
    (h0 : sigma ≠ 0) (h1 : sigma ≠ 1) :
    (homeProdStep sigma alpha HM HF).2.1 = max HM 1e-7 ∧
      (homeProdStep sigma alpha HM HF).2.2 = max HF 1e-7 := by
  simp [homeProdStep, h0, h1]

/-- Composite consumption good `Q = C**omega * H**(1-omega)`
(source line 68). -/
noncomputable def Qfun (omega C H : ℝ) : ℝ := C ^ omega * H ^ (1 - omega)

/-- Consumption utility `np.fmax(Q,1e-8)**(1-rho)/(1-rho)` (source line 69). -/
noncomputable def consUtil (rho Q : ℝ) : ℝ :=
  (max Q 1e-8) ^ (1 - rho) / (1 - rho)

/-- Disutility of work, variant A (source lines 72-75):
`nu*(TM**e/e + TF**e/e)` with `e = 1 + 1/epsilon`. -/
noncomputable def disutilA (nu epsilon TM TF : ℝ) : ℝ :=
  let epsilon_ := 1 + 1 / epsilon
  nu * (TM ^ epsilon_ / epsilon_ + TF ^ epsilon_ / epsilon_)

/-- Disutility of work, variant B (source line 258):
`nu*(TM**e/e) + eta*(TF**e/e)`. -/
noncomputable def disutilB (nu eta epsilon TM TF : ℝ) : ℝ :=
  let epsilon_ := 1 + 1 / epsilon
  nu * (TM ^ epsilon_ / epsilon_) + eta * (TF ^ epsilon_ / epsilon_)

/-- `HouseholdSpecializationModelClass.calc_utility` (source lines 47-77):
market consumption `C`, home production `H`, consumption utility from the
floored composite good, minus the shared-scale disutility of work.  The
disutility receives the FINAL values of the local `HM`, `HF`
(`homeProdStep`): in the CES branch these are the floored values the source
rebound at lines 62-63, which therefore also enter `TM` and `TF`. -/
noncomputable def calc_utilityA (par : ParA) (LM HM LF HF : ℝ) : ℝ :=
  let C := par.wM * LM + par.wF * LF
  let step := homeProdStep par.sigma par.alpha HM HF
  consUtil par.rho (Qfun par.omega C step.1) -
    disutilA par.nu par.epsilon (LM + step.2.1) (LF + step.2.2)

/-- The `par` namespace of `NewHouseholdSpecializationModelClass` (source
lines 201-219): the same fields as `ParA` plus the separate female disutility
scale `eta`. -/
structure ParB where
  rho : ℝ
  nu : ℝ
  eta : ℝ
  epsilon : ℝ
  omega : ℝ
  alpha : ℝ
  sigma : ℝ
  wM : ℝ
  wF : ℝ
  wF_vec : List ℝ
  beta0_target : ℝ
  beta1_target : ℝ

/-- The `sol` namespace of `NewHouseholdSpecializationModelClass` (source
lines 221-228), identical in shape to `SolA`. -/
structure SolB where
  LM_vec : List ℝ
  HM_vec : List ℝ
  LF_vec : List ℝ
  HF_vec : List ℝ
  beta0 : ℝ
  beta1 : ℝ

/-- A `NewHouseholdSpecializationModelClass` instance. -/
structure ModelB where
  par : ParB
  sol : SolB

/-- Default parameters of `NewHouseholdSpecializationModelClass.__init__`
(source lines 202-219), with `eta = 0.002`. -/
noncomputable def defaultParB : ParB :=
  { rho := 2.0, nu := 0.001, eta := 0.002, epsilon := 1.0, omega := 0.5,
    alpha := 0.5, sigma := 1.0, wM := 1.0, wF := 1.0,
    wF_vec := [0.8, 0.9, 1.0, 1.1, 1.2], beta0_target := 0.4,
    beta1_target := -0.1 }

/-- Forgetting variant B's extra field `eta` gives a variant A parameter
record with all shared fields unchanged. -/
noncomputable def ParB.toA (p : ParB) : ParA :=
  { rho := p.rho, nu := p.nu, epsilon := p.epsilon, omega := p.omega,
    alpha := p.alpha, sigma := p.sigma, wM := p.wM, wF := p.wF,
    wF_vec := p.wF_vec, beta0_target := p.beta0_target,
    beta1_target := p.beta1_target }

/-- `NewHouseholdSpecializationModelClass.calc_utility` (source lines
230-260): identical to variant A except for the separate-scale disutility
term on line 258; the same rebinding of `HM`, `HF` in the CES branch
(lines 245-246) feeds the floored values into `TM`, `TF`. -/
noncomputable def calc_utilityB (par : ParB) (LM HM LF HF : ℝ) : ℝ :=
  let C := par.wM * LM + par.wF * LF
  let step := homeProdStep par.sigma par.alpha HM HF
  consUtil par.rho (Qfun par.omega C step.1) -
    disutilB par.nu par.eta par.epsilon (LM + step.2.1) (LF + step.2.2)

/-!
## The discrete solver

`solve_discrete` (source lines 79-115) evaluates `calc_utility` on every
grid combination, masks infeasible combinations with `-np.inf`, and takes
`np.argmax`.  `-np.inf` is modelled by `⊥` of `WithBot ℝ`, and `np.argmax`
by `argmaxIdx`, the index of the first occurrence of the maximum.
-/

/-- Index of the first occurrence of the maximum of a list (`np.argmax`
semantics: `np.argmax` scans for the maximal value and returns the first
index attaining it; `0` on the empty list, which `np.argmax` rejects).
`d` is a default for out-of-range reads and never affects the result. -/
noncomputable def argmaxIdx {α : Type} [LinearOrder α] (d : α) : List α → Nat
  | [] => 0
  | [_] => 0
  | v :: w :: rest =>
    if v < (w :: rest).getD (argmaxIdx d (w :: rest)) d then
      argmaxIdx d (w :: rest) + 1
    else 0

theorem argmaxIdx_lt_length {α : Type} [LinearOrder α] (d : α) :
    ∀ l : List α, l ≠ [] → argmaxIdx d l < l.length := by
  intro l
  induction l with
  | nil => intro h; exact absurd rfl h
  | cons v t ih =>
    intro _
    cases t with
    | nil => simp [argmaxIdx]
    | cons w rest =>
      by_cases hlt : v < (w :: rest).getD (argmaxIdx d (w :: rest)) d
      · have h1 := ih (by simp)
        simp only [List.length_cons] at h1
        simp only [argmaxIdx, if_pos hlt, List.length_cons]
        omega
      · simp only [argmaxIdx, if_neg hlt, List.length_cons]
        omega

theorem argmaxIdx_le {α : Type} [LinearOrder α] (d : α) :
    ∀ (l : List α) (k : Nat), k < l.length →
      l.getD k d ≤ l.getD (argmaxIdx d l) d := by
  intro l
  induction l with
  | nil => intro k hk; simp at hk
  | cons v t ih =>
    intro k hk
    cases t with
    | nil =>
      simp only [List.length_cons, List.length_nil] at hk
      have hk0 : k = 0 := by omega
      subst hk0
      simp [argmaxIdx]
    | cons w rest =>
      by_cases hlt : v < (w :: rest).getD (argmaxIdx d (w :: rest)) d
      · simp only [argmaxIdx, if_pos hlt]
        rw [List.getD_cons_succ]
        cases k with
        | zero => exact le_of_lt hlt
        | succ k =>
          rw [List.getD_cons_succ]
          exact ih k (by simpa using hk)
      · simp only [argmaxIdx, if_neg hlt]
        rw [List.getD_cons_zero]
        push_neg at hlt
        cases k with
        | zero => simp
        | succ k =>
          rw [List.getD_cons_succ]
          exact le_trans (ih k (by simpa using hk)) hlt

theorem argmaxIdx_first {α : Type} [LinearOrder α] (d : α) :
    ∀ (l : List α) (k : Nat), k < argmaxIdx d l →
      l.getD k d < l.getD (argmaxIdx d l) d := by
  intro l
  induction l with
  | nil => intro k hk; simp [argmaxIdx] at hk
  | cons v t ih =>
    intro k hk
    cases t with
    | nil => simp [argmaxIdx] at hk
    | cons w rest =>
      by_cases hlt : v < (w :: rest).getD (argmaxIdx d (w :: rest)) d
      · simp only [argmaxIdx, if_pos hlt] at hk ⊢
        rw [List.getD_cons_succ]
        cases k with
        | zero => exact hlt
        | succ k =>
          rw [List.getD_cons_succ]
          exact ih k (by omega)
      · simp only [argmaxIdx, if_neg hlt] at hk
        omega

/-- The choice grid `np.linspace(0,24,49)` (source line 87): the 49 points
`i * (24/48)` for `i = 0, …, 48`. -/
noncomputable def gridPts : List ℝ :=
  (List.range 49).map fun i : ℕ => (i : ℝ) * (24 / 48)

/-- All grid combinations, in the order the raveled `np.meshgrid(x,x,x,x)`
arrays enumerate them (source lines 88-93; with numpy's default `'xy'`
indexing the `HM` axis is outermost, then `LM`, `LF`, `HF`), as tuples
`(LM, HM, LF, HF)`. -/
noncomputable def choicesA : List (ℝ × ℝ × ℝ × ℝ) :=
  gridPts.flatMap fun hm =>
    gridPts.flatMap fun lm =>
      gridPts.flatMap fun lf =>
        gridPts.map fun hf => (lm, hm, lf, hf)

/-- The per-member time-budget violation `(LM+HM > 24) | (LF+HF > 24)` of
source line 99. -/
def brokenConstraint (c : ℝ × ℝ × ℝ × ℝ) : Prop :=
  24 < c.1 + c.2.1 ∨ 24 < c.2.2.1 + c.2.2.2

/-- The utility array of `solve_discrete` after masking (source lines 96-100):
`calc_utility` on every combination, with `-np.inf` (`⊥`) at combinations
breaking a time-budget constraint. -/
noncomputable def uListA (par : ParA) : List (WithBot ℝ) :=
  choicesA.map fun c =>
    if brokenConstraint c then ⊥
    else ((calc_utilityA par c.1 c.2.1 c.2.2.1 c.2.2.2 : ℝ) : WithBot ℝ)

/-- `HouseholdSpecializationModelClass.solve_discrete` (source lines 79-115):
the combination at the argmax of the masked utility array.  `np.argmax` on a
nonempty array is always in bounds, so the `getD` default `(0,0,0,0)` is
never used (`solve_discreteA_eq_getElem` below). -/
noncomputable def solve_discreteA (par : ParA) : ℝ × ℝ × ℝ × ℝ :=
  choicesA.getD (argmaxIdx ⊥ (uListA par)) (0, 0, 0, 0)

theorem length_flatMap_const {α β : Type} (l : List α) (f : α → List β)
    (c : Nat) (h : ∀ a ∈ l, (f a).length = c) :
    (l.flatMap f).length = l.length * c := by
  induction l with
  | nil => simp
  | cons a t ih =>
    rw [List.flatMap_cons, List.length_append, h a (by simp),
      ih fun b hb => h b (List.mem_cons_of_mem a hb)]
    simp [List.length_cons]
    ring

theorem gridPts_length : gridPts.length = 49 := by
  rw [gridPts, List.length_map, List.length_range]

theorem choicesA_length : choicesA.length = 5764801 := by
  have h1 : ∀ lm hm lf : ℝ,
      (gridPts.map fun hf => (lm, hm, lf, hf)).length = 49 := by
    intro lm hm lf; simp [gridPts_length]
  have h2 : ∀ lm hm : ℝ,
      ((gridPts.flatMap fun lf => gridPts.map fun hf =>
        (lm, hm, lf, hf)).length) = 49 * 49 := by
    intro lm hm
    rw [length_flatMap_const _ _ 49 fun a _ => h1 lm hm a, gridPts_length]
  have h3 : ∀ hm : ℝ,
      ((gridPts.flatMap fun lm => gridPts.flatMap fun lf =>
        gridPts.map fun hf => (lm, hm, lf, hf)).length) = 49 * (49 * 49) := by
    intro hm
    rw [length_flatMap_const _ _ (49 * 49) fun a _ => h2 a hm, gridPts_length]
  rw [choicesA, length_flatMap_const _ _ (49 * (49 * 49)) fun a _ => h3 a,
    gridPts_length]

theorem uListA_length (par : ParA) : (uListA par).length = 5764801 := by
  rw [uListA, List.length_map, choicesA_length]

theorem zero_mem_gridPts : (0 : ℝ) ∈ gridPts := by
  rw [gridPts, List.mem_map]
  refine ⟨0, ?_, ?_⟩
  · exact List.mem_range.mpr (by norm_num)
  · norm_num

theorem origin_mem_choicesA : ((0 : ℝ), (0 : ℝ), (0 : ℝ), (0 : ℝ)) ∈ choicesA := by
  rw [choicesA, List.mem_flatMap]
  refine ⟨0, zero_mem_gridPts, ?_⟩
  rw [List.mem_flatMap]
  refine ⟨0, zero_mem_gridPts, ?_⟩
  rw [List.mem_flatMap]
  refine ⟨0, zero_mem_gridPts, ?_⟩
  rw [List.mem_map]
  exact ⟨0, zero_mem_gridPts, rfl⟩

/-- The utility array holds, at the all-zero combination, the real (not
`-np.inf`) utility of `(0,0,0,0)`: the constraint is not broken there. -/
theorem coe_utility_origin_mem_uListA (par : ParA) :
    ((calc_utilityA par 0 0 0 0 : ℝ) : WithBot ℝ) ∈ uListA par := by
  rw [uListA, List.mem_map]
  refine ⟨((0 : ℝ), (0 : ℝ), (0 : ℝ), (0 : ℝ)), origin_mem_choicesA, ?_⟩
  rw [if_neg]
  rw [brokenConstraint]
  push_neg
  norm_num

/-- The argmax of the masked utility array never lands on a `⊥` (`-np.inf`)
entry: the feasible all-zero combination gives a real lower bound. -/
theorem uListA_argmax_ne_bot (par : ParA) :
    (uListA par).getD (argmaxIdx ⊥ (uListA par)) ⊥ ≠ ⊥ := by
  obtain ⟨k, hk, hval⟩ := List.mem_iff_getElem.mp (coe_utility_origin_mem_uListA par)
  have hle := argmaxIdx_le ⊥ (uListA par) k hk
  rw [List.getD_eq_getElem _ _ hk, hval] at hle
  intro hbot
  rw [hbot] at hle
  exact absurd (lt_of_lt_of_le (WithBot.bot_lt_coe _) hle) (lt_irrefl _)

/-- Reading a mapped list through `getD` at an in-bounds index is `f` of the
underlying read, whatever the defaults. -/
theorem getD_map_of_lt {α β : Type} (f : α → β) (l : List α) (i : Nat)
    (h : i < l.length) (d : α) (d' : β) :
    (l.map f).getD i d' = f (l.getD i d) := by
  rw [List.getD_eq_getElem _ _ (by simpa using h), List.getD_eq_getElem _ _ h,
    List.getElem_map]

/-- `np.argmax` over the masked utilities is always in bounds in the grid. -/
theorem argmaxIdx_uListA_lt (par : ParA) :
    argmaxIdx ⊥ (uListA par) < choicesA.length := by
  have hne : uListA par ≠ [] := by
    intro h
    have h5 := uListA_length par
    rw [h] at h5
    simp at h5
  have hlt := argmaxIdx_lt_length ⊥ (uListA par) hne
  rw [uListA_length par] at hlt
  rw [choicesA_length]
  exact hlt

/-- Claim C1: for every parameter record (in particular every one reachable
from the default construction), the choice returned by the discrete solver
is feasible: each member's market plus home hours stay within the 24-hour
budget.  The all-zero grid point is feasible and has utility above
`-np.inf`, so the argmax never selects a masked infeasible entry. -/
theorem C1_solve_discrete_feasible (par : ParA) :
    (solve_discreteA par).1 + (solve_discreteA par).2.1 ≤ 24 ∧
    (solve_discreteA par).2.2.1 + (solve_discreteA par).2.2.2 ≤ 24 := by
  have hlt := argmaxIdx_uListA_lt par
  have hne := uListA_argmax_ne_bot par
  have hgd : (uListA par).getD (argmaxIdx ⊥ (uListA par)) ⊥ =
      (if brokenConstraint (choicesA.getD (argmaxIdx ⊥ (uListA par)) (0, 0, 0, 0))
        then (⊥ : WithBot ℝ)
        else ((calc_utilityA par
          (choicesA.getD (argmaxIdx ⊥ (uListA par)) (0, 0, 0, 0)).1
          (choicesA.getD (argmaxIdx ⊥ (uListA par)) (0, 0, 0, 0)).2.1
          (choicesA.getD (argmaxIdx ⊥ (uListA par)) (0, 0, 0, 0)).2.2.1
          (choicesA.getD (argmaxIdx ⊥ (uListA par)) (0, 0, 0, 0)).2.2.2 : ℝ) :
            WithBot ℝ)) :=
    getD_map_of_lt _ choicesA _ hlt (0, 0, 0, 0) ⊥
  by_cases hb : brokenConstraint (choicesA.getD (argmaxIdx ⊥ (uListA par)) (0, 0, 0, 0))
  · rw [if_pos hb] at hgd
    exact absurd hgd hne
  · have hb' := hb
    rw [brokenConstraint] at hb'
    push_neg at hb'
    exact hb'

/-- Modelled from the spec (§4.2): the index `j` is the argmax of the array
with the standard `np.argmax` tie-break, i.e. it is in bounds, its entry is
maximal, and every strictly earlier entry is strictly smaller (so `j` is the
first occurrence of the maximum). -/
def isFirstArgmax (l : List (WithBot ℝ)) (j : Nat) : Prop :=
  j < l.length ∧ (∀ k : Fin l.length, l.getD k ⊥ ≤ l.getD j ⊥) ∧
    ∀ k : Fin l.length, k.val < j → l.getD k ⊥ < l.getD j ⊥

/-- Claim C7: the discrete solver evaluates utility on the full Cartesian
product of 49 equally spaced points of `[0,24]` (step `0.5`) per component
(`49^4` combinations), masks exactly the combinations violating a time
budget with `-np.inf` without removing them (the utility array keeps the
choice array's length, preserving index alignment), and returns the choice
at the argmax with first-occurrence tie-break.  Determinism given the
parameters is inherent: `solve_discreteA` is a function of `par` alone. -/
theorem C7_solve_discrete_grid_mask_argmax (par : ParA) :
    gridPts.length = 49 ∧
    (∀ i : Fin 49, gridPts.getD i.val 0 = (i.val : ℝ) * 0.5) ∧
    (∀ i : Fin 49, 0 ≤ gridPts.getD i.val 0 ∧ gridPts.getD i.val 0 ≤ 24) ∧
    choicesA.length = 49 ^ 4 ∧
    (uListA par).length = choicesA.length ∧
    (∀ i : Fin 5764801,
      ((uListA par).getD i.val ⊥ = ⊥ ↔
        brokenConstraint (choicesA.getD i.val (0, 0, 0, 0)))) ∧
    isFirstArgmax (uListA par) (argmaxIdx ⊥ (uListA par)) ∧
    solve_discreteA par =
      choicesA.getD (argmaxIdx ⊥ (uListA par)) (0, 0, 0, 0) := by
  have hgridD : ∀ i : Fin 49, gridPts.getD i.val 0 = (i.val : ℝ) * 0.5 := by
    intro i
    have hi : i.val < (List.range 49).length := by
      rw [List.length_range]; exact i.isLt
    have h1 : gridPts.getD i.val 0 =
        (((List.range 49).getD i.val 0 : ℕ) : ℝ) * (24 / 48) :=
      getD_map_of_lt _ _ _ hi 0 0
    rw [h1, List.getD_eq_getElem _ _ hi, List.getElem_range]
    norm_num
  refine ⟨gridPts_length, hgridD, ?_, ?_, ?_, ?_, ?_, rfl⟩
  · intro i
    rw [hgridD i]
    have hle : (i.val : ℝ) ≤ 48 := by
      have := i.isLt
      exact_mod_cast Nat.le_of_lt_succ this
    have hnn : (0 : ℝ) ≤ (i.val : ℝ) := Nat.cast_nonneg _
    constructor
    · nlinarith
    · nlinarith
  · rw [choicesA_length]; norm_num
  · rw [uListA_length, choicesA_length]
  · intro i
    have hlt : i.val < choicesA.length := by
      rw [choicesA_length]; exact i.isLt
    have hgd : (uListA par).getD i.val ⊥ =
        (if brokenConstraint (choicesA.getD i.val (0, 0, 0, 0))
          then (⊥ : WithBot ℝ)
          else ((calc_utilityA par
            (choicesA.getD i.val (0, 0, 0, 0)).1
            (choicesA.getD i.val (0, 0, 0, 0)).2.1
            (choicesA.getD i.val (0, 0, 0, 0)).2.2.1
            (choicesA.getD i.val (0, 0, 0, 0)).2.2.2 : ℝ) : WithBot ℝ)) :=
      getD_map_of_lt _ choicesA _ hlt (0, 0, 0, 0) ⊥
    rw [hgd]
    by_cases hb : brokenConstraint (choicesA.getD i.val (0, 0, 0, 0))
    · rw [if_pos hb]
      exact ⟨fun _ => hb, fun _ => rfl⟩
    · rw [if_neg hb]
      constructor
      · intro hcoe
        exact absurd hcoe (WithBot.coe_ne_bot)
      · intro hb'
        exact absurd hb' hb
  · have hne : uListA par ≠ [] := by
      intro h
      have h5 := uListA_length par
      rw [h] at h5
      simp at h5
    refine ⟨argmaxIdx_lt_length ⊥ (uListA par) hne, ?_, ?_⟩
    · intro k
      exact argmaxIdx_le ⊥ (uListA par) k.val k.isLt
    · intro k hk
      exact argmaxIdx_first ⊥ (uListA par) k.val hk

/-!
## The wage sweep, the regression and the calibration

`solve_cont` (source lines 117-138 and 300-321) is a call into scipy's SLSQP
local solver; it is external library code, so the sweep and the calibration
take it as an opaque function `solver : ParA → ℝ × ℝ × ℝ × ℝ` of the
parameter record it reads through `self.calc_utility`.  Likewise the
Nelder-Mead search inside `estimate` is taken as an opaque `minim` argument
receiving exactly what the source passes to `scipy.optimize.minimize`: the
stateful objective, the state the trials start from, the initial guess and
the box bounds, and returning the mutated state with `result.x`.
-/

/-- The write-back of one continuous sweep iteration (source lines 152-155):
store the four components of the solver result at index `it` of the four
solution vectors. -/
def setSolA (sol : SolA) (it : Nat) (r : ℝ × ℝ × ℝ × ℝ) : SolA :=
  { sol with
    LM_vec := sol.LM_vec.set it r.1,
    HM_vec := sol.HM_vec.set it r.2.1,
    LF_vec := sol.LF_vec.set it r.2.2.1,
    HF_vec := sol.HF_vec.set it r.2.2.2 }

/-- The `for it in range(par.wF_vec.size)` loop of `solve_wF_vec` (source
lines 146-155), recursing over the remaining wages with the current index:
each iteration first mutates `par.wF` to the current wage; the discrete
branch calls `solve_discrete` and discards its result (it writes no state,
so the call itself has no further effect), the continuous branch writes the
solver result into the solution vectors at the current index. -/
noncomputable def sweepGoA (solver : ParA → ℝ × ℝ × ℝ × ℝ) (discrete : Bool) :
    ModelA → List ℝ → Nat → ModelA
  | s, [], _ => s
  | s, w :: ws, it =>
    let par' := { s.par with wF := w }
    if discrete then
      sweepGoA solver discrete { par := par', sol := s.sol } ws (it + 1)
    else
      let res := solver par'
      sweepGoA solver discrete { par := par', sol := setSolA s.sol it res } ws
        (it + 1)

/-- `HouseholdSpecializationModelClass.solve_wF_vec` (source lines 140-155). -/
noncomputable def solve_wF_vecA (solver : ParA → ℝ × ℝ × ℝ × ℝ) (s : ModelA)
    (discrete : Bool) : ModelA :=
  sweepGoA solver discrete s s.par.wF_vec 0

/-- `np.linalg.lstsq` on the two-column design matrix
`np.vstack([np.ones(x.size), x]).T` (source lines 166-167): the ordinary
least-squares solution, written through the normal equations, which give
the unique least-squares solution whenever the `x` column is not constant
(`n*sxx - sx^2 ≠ 0`, full column rank). -/
noncomputable def lstsq2 (x y : List ℝ) : ℝ × ℝ :=
  let n : ℝ := x.length
  let sx := x.sum
  let sy := y.sum
  let sxx := (x.map fun a => a * a).sum
  let sxy := (List.zipWith (fun a b => a * b) x y).sum
  let b1 := (n * sxy - sx * sy) / (n * sxx - sx * sx)
  let b0 := (sy - b1 * sx) / n
  (b0, b1)

/-- The regressor `x = np.log(par.wF_vec/par.wM)` (source line 164). -/
noncomputable def regX (wF_vec : List ℝ) (wM : ℝ) : List ℝ :=
  wF_vec.map fun w => Real.log (w / wM)

/-- The regressand `y = np.log(sol.HF_vec/sol.HM_vec)` (source line 165). -/
noncomputable def regY (HF_vec HM_vec : List ℝ) : List ℝ :=
  List.zipWith (fun hf hm => Real.log (hf / hm)) HF_vec HM_vec

/-- `HouseholdSpecializationModelClass.run_regression` (source lines
158-167): fit `y = beta0 + beta1*x` and store the coefficients in `sol`. -/
noncomputable def run_regressionA (s : ModelA) : ModelA :=
  let b := lstsq2 (regX s.par.wF_vec s.par.wM) (regY s.sol.HF_vec s.sol.HM_vec)
  { s with sol := { s.sol with beta0 := b.1, beta1 := b.2 } }

/-- `HouseholdSpecializationModelClass.est` (source lines 180-190): write the
trial `alpha` and `sigma` into `par`, run the continuous wage sweep, run the
regression, and return the squared deviation of the fresh coefficients from
the targets (the method mutates `self`; the embedding returns the mutated
state together with the objective value). -/
noncomputable def estA (solver : ParA → ℝ × ℝ × ℝ × ℝ) (s : ModelA)
    (x : ℝ × ℝ) : ModelA × ℝ :=
  let s1 : ModelA := { s with par := { s.par with alpha := x.1, sigma := x.2 } }
  let s2 := run_regressionA (solve_wF_vecA solver s1 false)
  (s2, (s2.par.beta0_target - s2.sol.beta0) ^ 2 +
    (s2.par.beta1_target - s2.sol.beta1) ^ 2)

/-- The shape of the external `scipy.optimize.minimize(obj, x0=[0.5,0.1],
method='Nelder-Mead', bounds=[(0.01,0.99)]*2)` call of `estimate` (source
line 176): stateful objective, starting state, initial guess, bounds; it
returns the final mutated state and `result.x`. -/
def MinimizerA : Type :=
  (ModelA → ℝ × ℝ → ModelA × ℝ) → ModelA → (ℝ × ℝ) → ((ℝ × ℝ) × (ℝ × ℝ)) →
    ModelA × (ℝ × ℝ)

/-- `HouseholdSpecializationModelClass.estimate` (source lines 171-178): its
`alpha`, `sigma` and `do_print` arguments appear in the signature but are
never read; the Nelder-Mead search always starts from the hard-coded guess
`[0.5, 0.1]` with bounds `[(0.01, 0.99)]*2` and minimizes `self.est`. -/
noncomputable def estimateA (solver : ParA → ℝ × ℝ × ℝ × ℝ) (minim : MinimizerA)
    (s : ModelA) (alpha sigma : Option ℝ) (do_print : Bool) :
    ModelA × (ℝ × ℝ) :=
  minim (fun st x => estA solver st x) s (0.5, 0.1) ((0.01, 0.99), (0.01, 0.99))

/-- Variant B write-back, identical to `setSolA` (source lines 335-338). -/
def setSolB (sol : SolB) (it : Nat) (r : ℝ × ℝ × ℝ × ℝ) : SolB :=
  { sol with
    LM_vec := sol.LM_vec.set it r.1,
    HM_vec := sol.HM_vec.set it r.2.1,
    LF_vec := sol.LF_vec.set it r.2.2.1,
    HF_vec := sol.HF_vec.set it r.2.2.2 }

/-- The `solve_wF_vec` loop of `NewHouseholdSpecializationModelClass`
(source lines 329-338). -/
noncomputable def sweepGoB (solver : ParB → ℝ × ℝ × ℝ × ℝ) (discrete : Bool) :
    ModelB → List ℝ → Nat → ModelB
  | s, [], _ => s
  | s, w :: ws, it =>
    let par' := { s.par with wF := w }
    if discrete then
      sweepGoB solver discrete { par := par', sol := s.sol } ws (it + 1)
    else
      let res := solver par'
      sweepGoB solver discrete { par := par', sol := setSolB s.sol it res } ws
        (it + 1)

/-- `NewHouseholdSpecializationModelClass.solve_wF_vec` (source lines
323-338). -/
noncomputable def solve_wF_vecB (solver : ParB → ℝ × ℝ × ℝ × ℝ) (s : ModelB)
    (discrete : Bool) : ModelB :=
  sweepGoB solver discrete s s.par.wF_vec 0

/-- `NewHouseholdSpecializationModelClass.run_regression` (source lines
341-350), identical to variant A's. -/
noncomputable def run_regressionB (s : ModelB) : ModelB :=
  let b := lstsq2 (regX s.par.wF_vec s.par.wM) (regY s.sol.HF_vec s.sol.HM_vec)
  { s with sol := { s.sol with beta0 := b.1, beta1 := b.2 } }

/-- `NewHouseholdSpecializationModelClass.est` (source lines 362-371): write
the trial `sigma` only, then sweep, regress and return the squared
deviation. -/
noncomputable def estB (solver : ParB → ℝ × ℝ × ℝ × ℝ) (s : ModelB) (x : ℝ) :
    ModelB × ℝ :=
  let s1 : ModelB := { s with par := { s.par with sigma := x } }
  let s2 := run_regressionB (solve_wF_vecB solver s1 false)
  (s2, (s2.par.beta0_target - s2.sol.beta0) ^ 2 +
    (s2.par.beta1_target - s2.sol.beta1) ^ 2)

/-- The external `scipy.optimize.minimize(obj, x0=[0.1],
method='Nelder-Mead', bounds=[(0.01,0.99)])` call of variant B's `estimate`
(source line 358). -/
def MinimizerB : Type :=
  (ModelB → ℝ → ModelB × ℝ) → ModelB → ℝ → (ℝ × ℝ) → ModelB × ℝ

/-- `NewHouseholdSpecializationModelClass.estimate` (source lines 353-360):
the `sigma` and `do_print` arguments are never read; the search starts from
the hard-coded guess `[0.1]` with bound `(0.01, 0.99)`. -/
noncomputable def estimateB (solver : ParB → ℝ × ℝ × ℝ × ℝ) (minim : MinimizerB)
    (s : ModelB) (sigma : Option ℝ) (do_print : Bool) : ModelB × ℝ :=
  minim (fun st x => estB solver st x) s 0.1 (0.01, 0.99)

/-- Modelled from the spec (§4.6 "Objective per trial", variant A): set the
trial parameters `(alpha, sigma)` into Parameters, run the full continuous
WageSweep, run Regression, and return
`(beta0_target − beta0)^2 + (beta1_target − beta1)^2` from the coefficients
the Regression just fitted. -/
noncomputable def calibrationTrialA (solver : ParA → ℝ × ℝ × ℝ × ℝ)
    (s : ModelA) (x : ℝ × ℝ) : ModelA × ℝ :=
  let withTrial : ModelA :=
    { s with par := { s.par with alpha := x.1, sigma := x.2 } }
  let afterSweep := solve_wF_vecA solver withTrial false
  let afterReg := run_regressionA afterSweep
  (afterReg,
    (afterReg.par.beta0_target - afterReg.sol.beta0) ^ 2 +
      (afterReg.par.beta1_target - afterReg.sol.beta1) ^ 2)

/-- Modelled from the spec (§4.6 "Objective per trial", variant B): the same
trial with `sigma` as the only free parameter. -/
noncomputable def calibrationTrialB (solver : ParB → ℝ × ℝ × ℝ × ℝ)
    (s : ModelB) (x : ℝ) : ModelB × ℝ :=
  let withTrial : ModelB := { s with par := { s.par with sigma := x } }
  let afterSweep := solve_wF_vecB solver withTrial false
  let afterReg := run_regressionB afterSweep
  (afterReg,
    (afterReg.par.beta0_target - afterReg.sol.beta0) ^ 2 +
      (afterReg.par.beta1_target - afterReg.sol.beta1) ^ 2)

/-- Claim C3: each calibration trial (the `est` objective, in both variants)
first writes the candidate parameters into the Parameters record (`alpha`
and `sigma` in variant A; `sigma` only in variant B), then runs the full
continuous wage sweep followed by the regression, and returns exactly the
squared deviation of the freshly fitted coefficients from the targets; and
variant B's outer search is handed the single initial guess `0.1` with
bound `[0.01, 0.99]`. -/
theorem C3_est_objective_pipeline :
    (∀ (solver : ParA → ℝ × ℝ × ℝ × ℝ) (s : ModelA) (x : ℝ × ℝ),
      estA solver s x = calibrationTrialA solver s x) ∧
    (∀ (solver : ParB → ℝ × ℝ × ℝ × ℝ) (s : ModelB) (x : ℝ),
      estB solver s x = calibrationTrialB solver s x) ∧
    (∀ (solver : ParB → ℝ × ℝ × ℝ × ℝ) (minim : MinimizerB) (s : ModelB)
      (sigma : Option ℝ) (do_print : Bool),
      estimateB solver minim s sigma do_print =
        minim (fun st x => estB solver st x) s 0.1 (0.01, 0.99)) :=
  ⟨fun _ _ _ => rfl, fun _ _ _ => rfl, fun _ _ _ _ _ => rfl⟩

/-- Claim C10: the arguments accepted by the public calibration entry point
`estimate` are ignored in both variants: calls on the same model state
differing only in `alpha`/`sigma`/`do_print` perform the same search from
the same hard-coded initial guess and return the same result. -/
theorem C10_estimate_ignores_arguments :
    (∀ (solver : ParA → ℝ × ℝ × ℝ × ℝ) (minim : MinimizerA) (s : ModelA)
      (alpha1 sigma1 : Option ℝ) (p1 : Bool)
      (alpha2 sigma2 : Option ℝ) (p2 : Bool),
      estimateA solver minim s alpha1 sigma1 p1 =
        estimateA solver minim s alpha2 sigma2 p2) ∧
    (∀ (solver : ParA → ℝ × ℝ × ℝ × ℝ) (minim : MinimizerA) (s : ModelA)
      (alpha sigma : Option ℝ) (p : Bool),
      estimateA solver minim s alpha sigma p =
        minim (fun st x => estA solver st x) s (0.5, 0.1)
          ((0.01, 0.99), (0.01, 0.99))) ∧
    (∀ (solver : ParB → ℝ × ℝ × ℝ × ℝ) (minim : MinimizerB) (s : ModelB)
      (sigma1 : Option ℝ) (p1 : Bool) (sigma2 : Option ℝ) (p2 : Bool),
      estimateB solver minim s sigma1 p1 = estimateB solver minim s sigma2 p2) :=
  ⟨fun _ _ _ _ _ _ _ _ _ => rfl, fun _ _ _ _ _ _ => rfl,
    fun _ _ _ _ _ _ _ => rfl⟩

/-!
## Frame properties of the wage sweep
-/

/-- After the sweep loop, the parameter record is the initial one with `wF`
replaced by the last wage processed (the initial `wF` if none was), in both
modes: the `par.wF = par.wF_vec[it]` mutation persists. -/
theorem sweepGoA_par (solver : ParA → ℝ × ℝ × ℝ × ℝ) (discrete : Bool) :
    ∀ (ws : List ℝ) (s : ModelA) (it : Nat),
      (sweepGoA solver discrete s ws it).par =
        { s.par with wF := ws.getLastD s.par.wF } := by
  intro ws
  induction ws with
  | nil => intro s it; rfl
  | cons w ws ih =>
    intro s it
    cases discrete with
    | false =>
      show (sweepGoA solver false
        { par := { s.par with wF := w },
          sol := setSolA s.sol it (solver { s.par with wF := w }) } ws
        (it + 1)).par = _
      rw [ih]
      rw [List.getLastD_cons]
    | true =>
      show (sweepGoA solver true
        { par := { s.par with wF := w }, sol := s.sol } ws (it + 1)).par = _
      rw [ih]
      rw [List.getLastD_cons]

/-- In discrete mode the sweep loop never touches the solution vectors. -/
theorem sweepGoA_discrete_sol (solver : ParA → ℝ × ℝ × ℝ × ℝ) :
    ∀ (ws : List ℝ) (s : ModelA) (it : Nat),
      (sweepGoA solver true s ws it).sol = s.sol := by
  intro ws
  induction ws with
  | nil => intro s it; rfl
  | cons w ws ih =>
    intro s it
    show (sweepGoA solver true
      { par := { s.par with wF := w }, sol := s.sol } ws (it + 1)).sol = _
    rw [ih]

/-- Successively overwrite entries of `l` starting at index `i` with the
values of a second list (the accumulated `sol.X_vec[it] = res[k]` writes of
a continuous sweep). -/
def overwriteFrom : List ℝ → Nat → List ℝ → List ℝ
  | l, _, [] => l
  | l, i, v :: vs => overwriteFrom (l.set i v) (i + 1) vs

theorem overwriteFrom_cons (a : ℝ) :
    ∀ (vs : List ℝ) (l : List ℝ) (i : Nat),
      overwriteFrom (a :: l) (i + 1) vs = a :: overwriteFrom l i vs := by
  intro vs
  induction vs with
  | nil => intro l i; rfl
  | cons v vs ih =>
    intro l i
    show overwriteFrom ((a :: l).set (i + 1) v) (i + 2) vs = _
    rw [List.set_cons_succ]
    exact ih (l.set i v) (i + 1)

/-- Overwriting a list from index `0` with an equally long list replaces it
entirely. -/
theorem overwriteFrom_zero (vs : List ℝ) :
    ∀ l : List ℝ, l.length = vs.length → overwriteFrom l 0 vs = vs := by
  induction vs with
  | nil =>
    intro l hl
    rw [List.length_nil] at hl
    rw [List.eq_nil_of_length_eq_zero hl]
    rfl
  | cons v vs ih =>
    intro l hl
    cases l with
    | nil => simp at hl
    | cons a l' =>
      show overwriteFrom ((a :: l').set 0 v) 1 vs = _
      rw [List.set_cons_zero]
      have h1 : overwriteFrom (v :: l') (0 + 1) vs = v :: overwriteFrom l' 0 vs :=
        overwriteFrom_cons v vs l' 0
      rw [show (1 : Nat) = 0 + 1 from rfl, h1, ih l' (by simpa using hl)]

/-- Closed form of a continuous sweep: the solution vectors are `l.set`
chains writing, from the starting index on, the per-wage solver results;
`beta0`/`beta1` are untouched. -/
theorem sweepGoA_cont_sol (solver : ParA → ℝ × ℝ × ℝ × ℝ) :
    ∀ (ws : List ℝ) (s : ModelA) (it : Nat),
      (sweepGoA solver false s ws it).sol =
        { LM_vec := overwriteFrom s.sol.LM_vec it
            (ws.map fun w => (solver { s.par with wF := w }).1),
          HM_vec := overwriteFrom s.sol.HM_vec it
            (ws.map fun w => (solver { s.par with wF := w }).2.1),
          LF_vec := overwriteFrom s.sol.LF_vec it
            (ws.map fun w => (solver { s.par with wF := w }).2.2.1),
          HF_vec := overwriteFrom s.sol.HF_vec it
            (ws.map fun w => (solver { s.par with wF := w }).2.2.2),
          beta0 := s.sol.beta0, beta1 := s.sol.beta1 } := by
  intro ws
  induction ws with
  | nil => intro s it; rfl
  | cons w ws ih =>
    intro s it
    show (sweepGoA solver false
      { par := { s.par with wF := w },
        sol := setSolA s.sol it (solver { s.par with wF := w }) } ws
      (it + 1)).sol = _
    rw [ih]
    rfl

/-- Claim C6: after `solve_wF_vec` completes, (1) in discrete mode all four
solution vectors are unchanged while in continuous mode they hold, entry by
entry, the solver results for the corresponding wages (given vectors of
matching length, as in the default construction), and (2) in both modes
`par.wF` ends up as the last element of `wF_vec` — `1.2` for the default
vector — i.e. the mutation of `wF` persists after the sweep returns. -/
theorem C6_solve_wF_vec_frame (solver : ParA → ℝ × ℝ × ℝ × ℝ) (s : ModelA) :
    ((solve_wF_vecA solver s true).sol = s.sol) ∧
    ((solve_wF_vecA solver s true).par.wF = s.par.wF_vec.getLastD s.par.wF) ∧
    ((solve_wF_vecA solver s false).par.wF = s.par.wF_vec.getLastD s.par.wF) ∧
    (s.sol.LM_vec.length = s.par.wF_vec.length →
      s.sol.HM_vec.length = s.par.wF_vec.length →
      s.sol.LF_vec.length = s.par.wF_vec.length →
      s.sol.HF_vec.length = s.par.wF_vec.length →
      (solve_wF_vecA solver s false).sol.LM_vec =
        s.par.wF_vec.map (fun w => (solver { s.par with wF := w }).1) ∧
      (solve_wF_vecA solver s false).sol.HM_vec =
        s.par.wF_vec.map (fun w => (solver { s.par with wF := w }).2.1) ∧
      (solve_wF_vecA solver s false).sol.LF_vec =
        s.par.wF_vec.map (fun w => (solver { s.par with wF := w }).2.2.1) ∧
      (solve_wF_vecA solver s false).sol.HF_vec =
        s.par.wF_vec.map (fun w => (solver { s.par with wF := w }).2.2.2)) ∧
    defaultParA.wF_vec.getLastD defaultParA.wF = 1.2 := by
  refine ⟨?_, ?_, ?_, ?_, rfl⟩
  · exact sweepGoA_discrete_sol solver s.par.wF_vec s 0
  · rw [solve_wF_vecA, sweepGoA_par]
  · rw [solve_wF_vecA, sweepGoA_par]
  · intro h1 h2 h3 h4
    have hs := sweepGoA_cont_sol solver s.par.wF_vec s 0
    rw [solve_wF_vecA, hs]
    refine ⟨?_, ?_, ?_, ?_⟩
    · exact overwriteFrom_zero _ _ (by rw [h1, List.length_map])
    · exact overwriteFrom_zero _ _ (by rw [h2, List.length_map])
    · exact overwriteFrom_zero _ _ (by rw [h3, List.length_map])
    · exact overwriteFrom_zero _ _ (by rw [h4, List.length_map])

/-!
## The utility function: branch rule, disutility variants, purity
-/

/-- Modelled from the spec (§4.1 "Home production H, by sigma"): the
three-branch rule — `sigma = 0` gives `min(HM, HF)` (Leontief), `sigma = 1`
gives `HM^(1−alpha)·HF^alpha` (Cobb-Douglas), and otherwise the CES
aggregate of `HM`, `HF` floored at `1e-7`. -/
noncomputable def homeProductionRule (sigma alpha HM HF : ℝ) : ℝ :=
  if sigma = 0 then min HM HF
  else if sigma = 1 then HM ^ (1 - alpha) * HF ^ alpha
  else
    ((1 - alpha) * (max HM 1e-7) ^ ((sigma - 1) / sigma) +
        alpha * (max HF 1e-7) ^ ((sigma - 1) / sigma)) ^ (sigma / (sigma - 1))

/-- Claim C2: the home-production value `H` computed inside `calc_utility`
(the first component of `homeProdStep`, which feeds the composite good)
follows the spec's three-branch rule on `sigma` for every choice and every
`alpha`; in particular, for `sigma = 0` the home-production term at
`HM = 3`, `HF = 7` equals `3` (the min rule), whatever `alpha` is. -/
theorem C2_home_production_branches :
    (∀ sigma alpha HM HF : ℝ,
      homeProd sigma alpha HM HF = homeProductionRule sigma alpha HM HF) ∧
    (∀ sigma alpha HM HF : ℝ,
      (homeProdStep sigma alpha HM HF).1 = homeProd sigma alpha HM HF) ∧
    (∀ (par : ParA) (LM HM LF HF : ℝ),
      calc_utilityA par LM HM LF HF =
        consUtil par.rho
          (Qfun par.omega (par.wM * LM + par.wF * LF)
            (homeProd par.sigma par.alpha HM HF)) -
          disutilA par.nu par.epsilon
            (LM + (homeProdStep par.sigma par.alpha HM HF).2.1)
            (LF + (homeProdStep par.sigma par.alpha HM HF).2.2)) ∧
    (∀ alpha : ℝ, homeProd 0 alpha 3 7 = 3) := by
  refine ⟨fun _ _ _ _ => rfl, homeProdStep_fst, ?_, fun alpha => ?_⟩
  · intro par LM HM LF HF
    simp only [calc_utilityA]
    rw [homeProdStep_fst]
  · rw [homeProd, if_pos rfl]
    norm_num

/-- Default variant A parameters with `sigma = 0.5`: a CES-branch setting
(as every calibration trial's `sigma ∈ [0.01, 0.99]` is). -/
noncomputable def parCES : ParA := { defaultParA with sigma := 0.5 }

/-- Counterexample to claim C5 as stated: at `sigma = 0.5` (CES branch) and
the choice `(LM, HM, LF, HF) = (0, 0, 0, 7)`, the utility the program
computes is NOT the consumption utility minus
`nu*((LM+HM)^e/e + (LF+HF)^e/e)`: the source rebinds `HM` to
`fmax(HM, 1e-7) = 1e-7` before forming `TM = LM+HM`, so the subtracted
disutility uses `TM = 1e-7`, not `TM = 0`. -/
theorem C5_disutility_counterexample :
    calc_utilityA parCES 0 0 0 7 ≠
      consUtil parCES.rho
        (Qfun parCES.omega (parCES.wM * 0 + parCES.wF * 0)
          (homeProd parCES.sigma parCES.alpha 0 7)) -
        parCES.nu *
          (((0 : ℝ) + 0) ^ (1 + 1 / parCES.epsilon) / (1 + 1 / parCES.epsilon) +
            ((0 : ℝ) + 7) ^ (1 + 1 / parCES.epsilon) / (1 + 1 / parCES.epsilon)) := by
  have hs0 : parCES.sigma ≠ 0 := by norm_num [parCES, defaultParA]
  have hs1 : parCES.sigma ≠ 1 := by norm_num [parCES, defaultParA]
  obtain ⟨h21, h22⟩ := homeProdStep_snd_ces parCES.sigma parCES.alpha 0 7 hs0 hs1
  intro heq
  simp only [calc_utilityA] at heq
  rw [homeProdStep_fst, h21, h22] at heq
  have hd : disutilA parCES.nu parCES.epsilon (0 + max 0 1e-7) (0 + max 7 1e-7) =
      parCES.nu *
        (((0 : ℝ) + 0) ^ (1 + 1 / parCES.epsilon) / (1 + 1 / parCES.epsilon) +
          ((0 : ℝ) + 7) ^ (1 + 1 / parCES.epsilon) / (1 + 1 / parCES.epsilon)) := by
    linarith
  simp only [disutilA] at hd
  have hmax0 : (max (0 : ℝ) 1e-7) = 1e-7 := max_eq_right (by norm_num)
  have hmax7 : (max (7 : ℝ) 1e-7) = 7 := max_eq_left (by norm_num)
  rw [hmax0, hmax7] at hd
  have hnu : (0 : ℝ) < parCES.nu := by norm_num [parCES, defaultParA]
  have hEne : (1 : ℝ) + 1 / parCES.epsilon ≠ 0 := by
    norm_num [parCES, defaultParA]
  have hEpos : (0 : ℝ) < 1 + 1 / parCES.epsilon := by
    norm_num [parCES, defaultParA]
  have hzero : ((0 : ℝ) + 0) ^ ((1 : ℝ) + 1 / parCES.epsilon) = 0 := by
    rw [add_zero]
    exact Real.zero_rpow hEne
  rw [hzero, zero_div] at hd
  simp only [zero_add] at hd
  have h2 : (1e-7 : ℝ) ^ ((1 : ℝ) + 1 / parCES.epsilon) /
        (1 + 1 / parCES.epsilon) +
      (7 : ℝ) ^ ((1 : ℝ) + 1 / parCES.epsilon) /
        (1 + 1 / parCES.epsilon) =
      (7 : ℝ) ^ ((1 : ℝ) + 1 / parCES.epsilon) /
        (1 + 1 / parCES.epsilon) :=
    mul_left_cancel₀ (ne_of_gt hnu) hd
  have hpos : (0 : ℝ) < (1e-7 : ℝ) ^ ((1 : ℝ) + 1 / parCES.epsilon) :=
    Real.rpow_pos_of_pos (by norm_num) _
  have h4 : (0 : ℝ) < (1e-7 : ℝ) ^ ((1 : ℝ) + 1 / parCES.epsilon) /
      (1 + 1 / parCES.epsilon) := div_pos hpos hEpos
  linarith

/-- Claim C5, amended: with `e = 1 + 1/epsilon`, the disutility subtracted
by `calc_utility` is `nu*(TM^e/e + TF^e/e)` in variant A and
`nu*TM^e/e + eta*TF^e/e` in variant B, where `TM = LM+HM`, `TF = LF+HF` in
the `sigma = 0` and `sigma = 1` branches but `TM = LM+max(HM,1e-7)`,
`TF = LF+max(HF,1e-7)` in the CES branch (the floored locals of source
lines 62-63 / 245-246 flow into lines 73-74 / 256-257); the two variants'
utility functions agree whenever `eta = nu`, for every `sigma`. -/
theorem C5_disutility_variants_floored :
    (∀ (par : ParA) (LM HM LF HF : ℝ), par.sigma = 0 ∨ par.sigma = 1 →
      calc_utilityA par LM HM LF HF =
        consUtil par.rho
          (Qfun par.omega (par.wM * LM + par.wF * LF)
            (homeProd par.sigma par.alpha HM HF)) -
          par.nu * ((LM + HM) ^ (1 + 1 / par.epsilon) / (1 + 1 / par.epsilon) +
            (LF + HF) ^ (1 + 1 / par.epsilon) / (1 + 1 / par.epsilon))) ∧
    (∀ (par : ParA) (LM HM LF HF : ℝ), par.sigma ≠ 0 → par.sigma ≠ 1 →
      calc_utilityA par LM HM LF HF =
        consUtil par.rho
          (Qfun par.omega (par.wM * LM + par.wF * LF)
            (homeProd par.sigma par.alpha HM HF)) -
          par.nu * ((LM + max HM 1e-7) ^ (1 + 1 / par.epsilon) /
              (1 + 1 / par.epsilon) +
            (LF + max HF 1e-7) ^ (1 + 1 / par.epsilon) /
              (1 + 1 / par.epsilon))) ∧
    (∀ (par : ParB) (LM HM LF HF : ℝ), par.sigma = 0 ∨ par.sigma = 1 →
      calc_utilityB par LM HM LF HF =
        consUtil par.rho
          (Qfun par.omega (par.wM * LM + par.wF * LF)
            (homeProd par.sigma par.alpha HM HF)) -
          (par.nu * ((LM + HM) ^ (1 + 1 / par.epsilon) / (1 + 1 / par.epsilon)) +
            par.eta * ((LF + HF) ^ (1 + 1 / par.epsilon) / (1 + 1 / par.epsilon)))) ∧
    (∀ (par : ParB) (LM HM LF HF : ℝ), par.sigma ≠ 0 → par.sigma ≠ 1 →
      calc_utilityB par LM HM LF HF =
        consUtil par.rho
          (Qfun par.omega (par.wM * LM + par.wF * LF)
            (homeProd par.sigma par.alpha HM HF)) -
          (par.nu * ((LM + max HM 1e-7) ^ (1 + 1 / par.epsilon) /
              (1 + 1 / par.epsilon)) +
            par.eta * ((LF + max HF 1e-7) ^ (1 + 1 / par.epsilon) /
              (1 + 1 / par.epsilon)))) ∧
    (∀ (par : ParB) (LM HM LF HF : ℝ), par.eta = par.nu →
      calc_utilityB par LM HM LF HF = calc_utilityA par.toA LM HM LF HF) := by
  refine ⟨?_, ?_, ?_, ?_, ?_⟩
  · intro par LM HM LF HF h
    obtain ⟨hA, hB⟩ := homeProdStep_snd_branch par.sigma par.alpha HM HF h
    simp only [calc_utilityA, disutilA]
    rw [homeProdStep_fst, hA, hB]
  · intro par LM HM LF HF h0 h1
    obtain ⟨hA, hB⟩ := homeProdStep_snd_ces par.sigma par.alpha HM HF h0 h1
    simp only [calc_utilityA, disutilA]
    rw [homeProdStep_fst, hA, hB]
  · intro par LM HM LF HF h
    obtain ⟨hA, hB⟩ := homeProdStep_snd_branch par.sigma par.alpha HM HF h
    simp only [calc_utilityB, disutilB]
    rw [homeProdStep_fst, hA, hB]
  · intro par LM HM LF HF h0 h1
    obtain ⟨hA, hB⟩ := homeProdStep_snd_ces par.sigma par.alpha HM HF h0 h1
    simp only [calc_utilityB, disutilB]
    rw [homeProdStep_fst, hA, hB]
  · intro par LM HM LF HF h
    simp only [calc_utilityB, calc_utilityA, ParB.toA, disutilA, disutilB]
    rw [h]
    ring

/-- A method call `self.calc_utility(LM,HM,LF,HF)` as a state transformer on
a variant A instance: the method reads `self.par` and assigns nothing, so
the state passes through unchanged alongside the returned value. -/
noncomputable def callCalcUtilityA (s : ModelA) (LM HM LF HF : ℝ) :
    ModelA × ℝ :=
  (s, calc_utilityA s.par LM HM LF HF)

/-- Claim C9: `calc_utility` is a pure deterministic function of its four
arguments and the current Parameters: a call leaves the whole model state
(Parameters and SolutionVectors) unchanged, and two consecutive calls with
identical arguments return identical results. -/
theorem C9_calc_utility_pure (s : ModelA) (LM HM LF HF : ℝ) :
    (callCalcUtilityA s LM HM LF HF).1 = s ∧
    (callCalcUtilityA ((callCalcUtilityA s LM HM LF HF).1) LM HM LF HF).2 =
      (callCalcUtilityA s LM HM LF HF).2 ∧
    (callCalcUtilityA s LM HM LF HF).2 = calc_utilityA s.par LM HM LF HF :=
  ⟨rfl, rfl, rfl⟩

/-!
## The regression round-trip
-/

/-- Modelled from the spec (§8 "Regression round-trip"): the ordinary
least-squares objective, the residual sum of squares of the line
`y = b0 + b1*x` over the data. -/
noncomputable def rss (x y : List ℝ) (b0 b1 : ℝ) : ℝ :=
  (List.zipWith (fun xi yi => (yi - (b0 + b1 * xi)) ^ 2) x y).sum

/-- `lstsq2` recovers the exact coefficients from five data points lying
exactly on the line `y = p + q*x`, provided the regressor is not constant
(nonzero centered second moment). -/
theorem lstsq2_exact_5 (a b c d e' p q : ℝ)
    (hden : (5 : ℝ) * (a * a + b * b + c * c + d * d + e' * e') -
      (a + b + c + d + e') * (a + b + c + d + e') ≠ 0) :
    lstsq2 [a, b, c, d, e']
      [p + q * a, p + q * b, p + q * c, p + q * d, p + q * e'] = (p, q) := by
  have hD : (5 : ℝ) * (a * a + (b * b + (c * c + (d * d + (e' * e' + 0))))) -
      (a + (b + (c + (d + (e' + 0))))) * (a + (b + (c + (d + (e' + 0))))) ≠ 0 := by
    intro h0
    apply hden
    linear_combination h0
  have hpair : lstsq2 [a, b, c, d, e']
      [p + q * a, p + q * b, p + q * c, p + q * d, p + q * e'] =
      (([p + q * a, p + q * b, p + q * c, p + q * d, p + q * e'].sum -
          (lstsq2 [a, b, c, d, e']
            [p + q * a, p + q * b, p + q * c, p + q * d, p + q * e']).2 *
            [a, b, c, d, e'].sum) / (([a, b, c, d, e'].length : ℕ) : ℝ),
        (lstsq2 [a, b, c, d, e']
          [p + q * a, p + q * b, p + q * c, p + q * d, p + q * e']).2) := rfl
  have h2 : (lstsq2 [a, b, c, d, e']
      [p + q * a, p + q * b, p + q * c, p + q * d, p + q * e']).2 = q := by
    simp only [lstsq2, List.length_cons, List.length_nil, List.map_cons,
      List.map_nil, List.sum_cons, List.sum_nil, List.zipWith_cons_cons,
      List.zipWith_nil_right]
    have h5 : ((0 + 1 + 1 + 1 + 1 + 1 : ℕ) : ℝ) = 5 := by norm_num
    rw [h5, div_eq_iff hD]
    ring
  rw [hpair, h2]
  simp only [List.sum_cons, List.sum_nil, List.length_cons, List.length_nil,
    Prod.mk.injEq]
  constructor
  · have h5 : ((0 + 1 + 1 + 1 + 1 + 1 : ℕ) : ℝ) = 5 := by norm_num
    rw [h5, div_eq_iff (by norm_num : (5 : ℝ) ≠ 0)]
    ring
  · trivial

/-- Synthetic solution vectors for the regression round-trip (spec §8):
`HM_vec` all ones and `HF_vec = exp(0.4 − 0.1·log wF)` over the default
wage vector, so that `y = log(HF_vec/HM_vec)` satisfies `y = 0.4 − 0.1·x`
exactly for `x = log(wF_vec/wM)` with `wM = 1`. -/
noncomputable def synthSolA : SolA :=
  { LM_vec := [0, 0, 0, 0, 0], HM_vec := [1, 1, 1, 1, 1],
    LF_vec := [0, 0, 0, 0, 0],
    HF_vec := defaultParA.wF_vec.map fun w =>
      Real.exp (0.4 + (-0.1) * Real.log w),
    beta0 := 0, beta1 := 0 }

/-- The default model carrying the synthetic solution vectors. -/
noncomputable def synthModelA : ModelA := { par := defaultParA, sol := synthSolA }

/-- Claim C4: `run_regression` fits `y = beta0 + beta1*x` by ordinary least
squares with `x = log(wF_vec/wM)` and `y = log(HF_vec/HM_vec)`; on solution
vectors constructed so that `y = 0.4 − 0.1·x` exactly (with `wM = 1` and
the default `wF_vec`) it recovers `beta0 = 0.4` and `beta1 = −0.1`
(exactly, in real arithmetic), and these coefficients minimize the OLS
residual sum of squares over the same data. -/
theorem C4_run_regression_ols_roundtrip :
    ((run_regressionA synthModelA).sol.beta0 = 0.4 ∧
      (run_regressionA synthModelA).sol.beta1 = -0.1) ∧
    ∀ b0 b1 : ℝ,
      rss (regX synthModelA.par.wF_vec synthModelA.par.wM)
          (regY synthModelA.sol.HF_vec synthModelA.sol.HM_vec) 0.4 (-0.1) ≤
        rss (regX synthModelA.par.wF_vec synthModelA.par.wM)
          (regY synthModelA.sol.HF_vec synthModelA.sol.HM_vec) b0 b1 := by
  have hx : regX synthModelA.par.wF_vec synthModelA.par.wM =
      [Real.log 0.8, Real.log 0.9, Real.log 1.0, Real.log 1.1,
        Real.log 1.2] := by
    show regX defaultParA.wF_vec defaultParA.wM = _
    simp only [defaultParA, regX, List.map_cons, List.map_nil]
    norm_num
  have hy : regY synthModelA.sol.HF_vec synthModelA.sol.HM_vec =
      [0.4 + (-0.1) * Real.log 0.8, 0.4 + (-0.1) * Real.log 0.9,
        0.4 + (-0.1) * Real.log 1.0, 0.4 + (-0.1) * Real.log 1.1,
        0.4 + (-0.1) * Real.log 1.2] := by
    show regY (defaultParA.wF_vec.map fun w =>
      Real.exp (0.4 + (-0.1) * Real.log w)) [1, 1, 1, 1, 1] = _
    simp only [defaultParA, regY, List.map_cons, List.map_nil,
      List.zipWith_cons_cons, List.zipWith_nil_right]
    norm_num [Real.log_exp]
  have hden : (5 : ℝ) *
      (Real.log 0.8 * Real.log 0.8 + Real.log 0.9 * Real.log 0.9 +
        Real.log 1.0 * Real.log 1.0 + Real.log 1.1 * Real.log 1.1 +
        Real.log 1.2 * Real.log 1.2) -
      (Real.log 0.8 + Real.log 0.9 + Real.log 1.0 + Real.log 1.1 +
        Real.log 1.2) *
      (Real.log 0.8 + Real.log 0.9 + Real.log 1.0 + Real.log 1.1 +
        Real.log 1.2) ≠ 0 := by
    have hlt : Real.log 0.8 < Real.log 1.2 :=
      Real.log_lt_log (by norm_num) (by norm_num)
    have hne0 : Real.log 0.8 - Real.log 1.2 ≠ 0 :=
      sub_ne_zero.mpr (ne_of_lt hlt)
    have hpos : 0 < (Real.log 0.8 - Real.log 1.2) ^ 2 :=
      lt_of_le_of_ne (sq_nonneg _) (Ne.symm (pow_ne_zero 2 hne0))
    apply ne_of_gt
    have hid : (5 : ℝ) *
        (Real.log 0.8 * Real.log 0.8 + Real.log 0.9 * Real.log 0.9 +
          Real.log 1.0 * Real.log 1.0 + Real.log 1.1 * Real.log 1.1 +
          Real.log 1.2 * Real.log 1.2) -
        (Real.log 0.8 + Real.log 0.9 + Real.log 1.0 + Real.log 1.1 +
          Real.log 1.2) *
        (Real.log 0.8 + Real.log 0.9 + Real.log 1.0 + Real.log 1.1 +
          Real.log 1.2) =
        (Real.log 0.8 - Real.log 0.9) ^ 2 + (Real.log 0.8 - Real.log 1.0) ^ 2 +
          (Real.log 0.8 - Real.log 1.1) ^ 2 + (Real.log 0.8 - Real.log 1.2) ^ 2 +
          (Real.log 0.9 - Real.log 1.0) ^ 2 + (Real.log 0.9 - Real.log 1.1) ^ 2 +
          (Real.log 0.9 - Real.log 1.2) ^ 2 + (Real.log 1.0 - Real.log 1.1) ^ 2 +
          (Real.log 1.0 - Real.log 1.2) ^ 2 + (Real.log 1.1 - Real.log 1.2) ^ 2 := by
      ring
    rw [hid]
    have n1 := sq_nonneg (Real.log 0.8 - Real.log 0.9)
    have n2 := sq_nonneg (Real.log 0.8 - Real.log 1.0)
    have n3 := sq_nonneg (Real.log 0.8 - Real.log 1.1)
    have n4 := sq_nonneg (Real.log 0.9 - Real.log 1.0)
    have n5 := sq_nonneg (Real.log 0.9 - Real.log 1.1)
    have n6 := sq_nonneg (Real.log 0.9 - Real.log 1.2)
    have n7 := sq_nonneg (Real.log 1.0 - Real.log 1.1)
    have n8 := sq_nonneg (Real.log 1.0 - Real.log 1.2)
    have n9 := sq_nonneg (Real.log 1.1 - Real.log 1.2)
    linarith
  have key : lstsq2 (regX synthModelA.par.wF_vec synthModelA.par.wM)
      (regY synthModelA.sol.HF_vec synthModelA.sol.HM_vec) = (0.4, -0.1) := by
    rw [hx, hy]
    exact lstsq2_exact_5 _ _ _ _ _ _ _ hden
  refine ⟨⟨?_, ?_⟩, ?_⟩
  · show (lstsq2 (regX synthModelA.par.wF_vec synthModelA.par.wM)
      (regY synthModelA.sol.HF_vec synthModelA.sol.HM_vec)).1 = 0.4
    rw [key]
  · show (lstsq2 (regX synthModelA.par.wF_vec synthModelA.par.wM)
      (regY synthModelA.sol.HF_vec synthModelA.sol.HM_vec)).2 = -0.1
    rw [key]
  · intro b0 b1
    rw [hx, hy]
    have hzero : rss
        [Real.log 0.8, Real.log 0.9, Real.log 1.0, Real.log 1.1, Real.log 1.2]
        [0.4 + (-0.1) * Real.log 0.8, 0.4 + (-0.1) * Real.log 0.9,
          0.4 + (-0.1) * Real.log 1.0, 0.4 + (-0.1) * Real.log 1.1,
          0.4 + (-0.1) * Real.log 1.2] 0.4 (-0.1) = 0 := by
      simp only [rss, List.zipWith_cons_cons, List.zipWith_nil_right,
        List.sum_cons, List.sum_nil]
      ring
    rw [hzero]
    simp only [rss, List.zipWith_cons_cons, List.zipWith_nil_right,
      List.sum_cons, List.sum_nil]
    positivity

/-!
## The consumption-utility floor
-/

/-- Checked real power, modelling the domain error of the float `**`
operator: a zero base with a negative exponent is a domain error (Python
raises `ZeroDivisionError`; numpy signals the same case instead of raising);
every other case is the real value `Real.rpow` gives. -/
noncomputable def rpowChecked (x y : ℝ) : Option ℝ :=
  if x = 0 ∧ y < 0 then none else some (x ^ y)

/-- Claim C8: the consumption-utility term of `calc_utility` is
`max(Q, 1e-8)^(1−rho)/(1−rho)` with `Q = C^omega·H^(1−omega)`; for `rho > 1`
(e.g. the default `rho = 2`) and any choice with components in `[0, 24]` —
in particular when `C = 0` or `H = 0` — the floored base stays at least
`1e-8`, so the zero-base negative-power domain error is unreachable and the
checked power evaluates to the (finite, real) unchecked value. -/
theorem C8_consumption_floor_safe (par : ParA) (LM HM LF HF : ℝ)
    (hrho : 1 < par.rho)
    (hLM : 0 ≤ LM ∧ LM ≤ 24) (hHM : 0 ≤ HM ∧ HM ≤ 24)
    (hLF : 0 ≤ LF ∧ LF ≤ 24) (hHF : 0 ≤ HF ∧ HF ≤ 24) :
    calc_utilityA par LM HM LF HF =
      consUtil par.rho
        (Qfun par.omega (par.wM * LM + par.wF * LF)
          (homeProd par.sigma par.alpha HM HF)) -
        disutilA par.nu par.epsilon
          (LM + (homeProdStep par.sigma par.alpha HM HF).2.1)
          (LF + (homeProdStep par.sigma par.alpha HM HF).2.2) ∧
    (1e-8 : ℝ) ≤ max (Qfun par.omega (par.wM * LM + par.wF * LF)
        (homeProd par.sigma par.alpha HM HF)) 1e-8 ∧
    rpowChecked
        (max (Qfun par.omega (par.wM * LM + par.wF * LF)
          (homeProd par.sigma par.alpha HM HF)) 1e-8) (1 - par.rho) =
      some ((max (Qfun par.omega (par.wM * LM + par.wF * LF)
          (homeProd par.sigma par.alpha HM HF)) 1e-8) ^ (1 - par.rho)) ∧
    consUtil par.rho
        (Qfun par.omega (par.wM * LM + par.wF * LF)
          (homeProd par.sigma par.alpha HM HF)) =
      (max (Qfun par.omega (par.wM * LM + par.wF * LF)
          (homeProd par.sigma par.alpha HM HF)) 1e-8) ^ (1 - par.rho) /
        (1 - par.rho) := by
  refine ⟨?_, le_max_right _ _, ?_, rfl⟩
  · simp only [calc_utilityA]
    rw [homeProdStep_fst]
  rw [rpowChecked, if_neg]
  intro hcon
  have hfloor : (1e-8 : ℝ) ≤ max (Qfun par.omega (par.wM * LM + par.wF * LF)
      (homeProd par.sigma par.alpha HM HF)) 1e-8 := le_max_right _ _
  rw [hcon.1] at hfloor
  norm_num at hfloor

/-- Witness for C8 at the default parameters (`rho = 2 > 1`) and the choice
`(LM, HM, LF, HF) = (0, 3, 0, 7)`, for which `C = wM*0 + wF*0 = 0`: the
checked power of the floored composite good evaluates without a domain
error. -/
theorem C8_consumption_floor_safe_witness :
    rpowChecked
        (max (Qfun defaultParA.omega
          (defaultParA.wM * 0 + defaultParA.wF * 0)
          (homeProd defaultParA.sigma defaultParA.alpha 3 7)) 1e-8)
        (1 - defaultParA.rho) =
      some ((max (Qfun defaultParA.omega
          (defaultParA.wM * 0 + defaultParA.wF * 0)
          (homeProd defaultParA.sigma defaultParA.alpha 3 7)) 1e-8) ^
        (1 - defaultParA.rho)) :=
  (C8_consumption_floor_safe defaultParA 0 3 0 7
    (by norm_num [defaultParA]) (by norm_num) (by norm_num) (by norm_num)
    (by norm_num)).2.2.1
